import Mathlib

/-!
Verification of the mark-and-sweep garbage collector in
`packages/ipfs/src/core/components/repo/gc.js`.

The collector is parametric in its external collaborators (pinning subsystem,
pin manager, repository root store, reachability walker, blockstore, multibase
encoder, CID stringifier); we model them as fields of a `GCEnv` record and
translate the three functions `gc`, `createMarkedSet` and
`deleteUnmarkedBlocks` (with its inner `removeBlock`) directly.  Asynchronous
iteration is modelled as sequential list processing: the concurrent
`parallelMerge` of the three mark sources only feeds a `Set` (order
irrelevant, proved below), and the `transform(BLOCK_RM_CONCURRENCY, ...)`
sweep applies an independent per-key function whose decisions read only the
immutable marked set, so interleaving affects output order only.
-/

namespace RepoGC

/-- A content identifier as used by the `cids` library: a version, a codec
and the underlying multihash bytes.  Equality of multihashes is byte
equality. -/
structure CID where
  version : Nat
  codec : Nat
  multihash : List Nat
deriving DecidableEq

/-- `new CID(mh)` on raw multihash bytes produces a CIDv0 (dag-pb, 0x70)
wrapping those bytes. -/
def CID.fromBytes (mh : List Nat) : CID :=
  ⟨0, 112, mh⟩

/-- Outcome of `repo.root.get(MFS_ROOT_KEY)` when it fails: either the
NOT_FOUND error kind (`ERR_NOT_FOUND`) or any other error, carrying its
message. -/
inductive RootErr where
  | notFound
  | other (msg : String)
deriving DecidableEq

/-- The external collaborators consumed by the GC core, as lists / functions:
* `pinLs` — the cids yielded by `pin.ls()` (the pin source maps out `cid`);
* `internalBlocks` — `pinManager.getInternalBlocks()`;
* `rootGet` — `repo.root.get(MFS_ROOT_KEY)`: multihash bytes, or a failure;
* `refs` — `refs(rootCid, recursive)` with each yielded `ref` already parsed
  through `new CID(ref)`;
* `blocksQuery` — `repo.blocks.query(keysOnly)`: the enumerated block keys
  (as cids), or a failure starting the enumeration;
* `blocksDelete` — `repo.blocks.delete(cid)`: `none` on success, `some msg`
  when it throws an error with message `msg`;
* `encode` — `multibase.encode(base32, bytes).toString()`: the encoded
  string, or `some msg` failure when the encoder throws;
* `cidStr` — the string interpolation of a cid. -/
structure GCEnv where
  pinLs : List CID
  internalBlocks : List CID
  rootGet : Except RootErr (List Nat)
  refs : CID → List CID
  blocksQuery : Except String (List CID)
  blocksDelete : CID → Option String
  encode : List Nat → Except String String
  cidStr : CID → String

/-- Limit on the number of parallel block remove operations. -/
def BLOCK_RM_CONCURRENCY : Nat := 256

/-- The `mfsSource` generator inside `createMarkedSet`: look up the MFS root;
on `ERR_NOT_FOUND` contribute nothing; on any other failure propagate it; on
success yield the root cid and then everything the recursive refs walker
yields from it. -/
def mfsSource (env : GCEnv) : Except String (List CID) :=
  match env.rootGet with
  | Except.error RootErr.notFound => Except.ok []
  | Except.error (RootErr.other msg) => Except.error msg
  | Except.ok mh =>
      Except.ok (CID.fromBytes mh :: env.refs (CID.fromBytes mh))

/-- The `for await` loop of `createMarkedSet`: add
`multibase.encode(base32, cid.multihash).toString()` for each cid to the
output set; an encoder failure propagates. -/
def markCids (enc : List Nat → Except String String) :
    List CID → Finset String → Except String (Finset String)
  | [], out => Except.ok out
  | c :: rest, out =>
      match enc c.multihash with
      | Except.error msg => Except.error msg
      | Except.ok s => markCids enc rest (insert s out)

/-- `createMarkedSet`: merge the pin source, the pin-manager-internal source
and the MFS source, and collect the base32-encoded multihashes into a set.
`parallelMerge` interleaves the three sources in a scheduler-dependent order;
we fix the concatenation order here and prove the resulting set is invariant
under permutation. -/
def createMarkedSet (env : GCEnv) : Except String (Finset String) :=
  match mfsSource env with
  | Except.error msg => Except.error msg
  | Except.ok mfsCids =>
      markCids env.encode (env.pinLs ++ env.internalBlocks ++ mfsCids) ∅

/-- A GC result entry as yielded by the sweep: the JS objects `(cid)`,
`(cid, err)` and `(err)` become a pair of options. -/
structure GCEntry where
  cid : Option CID
  err : Option String
deriving DecidableEq

/-- `removeBlock` inside `deleteUnmarkedBlocks`: encode the key's multihash
(an encoder failure is caught by the outer handler and reported without a
`cid` field); a marked key returns `null`; otherwise attempt the delete and
return `(cid)` on success or `(cid, err)` on failure. -/
def removeBlock (env : GCEnv) (markedSet : Finset String) (cid : CID) :
    Option GCEntry :=
  match env.encode cid.multihash with
  | Except.error msg =>
      some ⟨none, some ("Could delete block with CID " ++ env.cidStr cid
        ++ ": " ++ msg)⟩
  | Except.ok b32 =>
      if b32 ∈ markedSet then
        none
      else
        match env.blocksDelete cid with
        | none => some ⟨some cid, none⟩
        | some msg =>
            some ⟨some cid, some ("Could not delete block with CID "
              ++ env.cidStr cid ++ ": " ++ msg)⟩

/-- Whether the sweep actually removes the block stored under `cid`: the key
must encode successfully, be unmarked, and the blockstore delete must
succeed. -/
def blockDeleted (env : GCEnv) (markedSet : Finset String) (cid : CID) :
    Bool :=
  match env.encode cid.multihash with
  | Except.error _ => false
  | Except.ok b32 =>
      if b32 ∈ markedSet then false else (env.blocksDelete cid).isNone

/-- `deleteUnmarkedBlocks`: run `removeBlock` over every enumerated key
(`transform` bounds concurrency at `BLOCK_RM_CONCURRENCY`; the per-key
results are interleaving-independent) and yield every non-`null` result. -/
def deleteUnmarkedBlocks (env : GCEnv) (markedSet : Finset String)
    (blockKeys : List CID) : List GCEntry :=
  blockKeys.filterMap (removeBlock env markedSet)

/-- The exported `gc` generator: acquire the write lock, build the marked
set, enumerate the block keys, sweep, and release the lock in a `finally`
block.  The second component counts the invocations of `release()` on the
taken exit path. -/
def gc (env : GCEnv) : Except String (List GCEntry) × Nat :=
  match createMarkedSet env with
  | Except.error msg => (Except.error msg, 1)
  | Except.ok markedSet =>
      match env.blocksQuery with
      | Except.error msg => (Except.error msg, 1)
      | Except.ok blockKeys =>
          (Except.ok (deleteUnmarkedBlocks env markedSet blockKeys), 1)

/-- The block keys the run deletes from the store (empty when the run aborts
before the sweep). -/
def deletedBlocks (env : GCEnv) : List CID :=
  match createMarkedSet env, env.blocksQuery with
  | Except.ok m, Except.ok keys => keys.filter (fun c => blockDeleted env m c)
  | _, Except.ok _ => []
  | _, Except.error _ => []

/-- The blockstore contents after the run: every enumerated key that the
sweep did not delete (all of them when the run aborts before the sweep). -/
def storeAfterGC (env : GCEnv) : List CID :=
  match createMarkedSet env, env.blocksQuery with
  | Except.ok m, Except.ok keys =>
      keys.filter (fun c => !(blockDeleted env m c))
  | _, Except.ok keys => keys
  | _, Except.error _ => []

/-- The multibase base32 encoding used by the witnesses: lowercase RFC 4648
base32 without padding, prefixed with the multibase code `b`. -/
def base32Chars : String :=
  "abcdefghijklmnopqrstuvwxyz234567"

/-- The `w` low bits of `n`, most significant first. -/
def natBits (w n : Nat) : List Bool :=
  ((List.range w).reverse).map (fun i => n.testBit i)

/-- Value of a big-endian bit string. -/
def bitsVal (bs : List Bool) : Nat :=
  bs.foldl (fun a b => 2 * a + (if b then 1 else 0)) 0

/-- Split a bit string into 5-bit groups; the final partial group is padded
with zero bits. -/
def bitsToGroups : List Bool → List Nat
  | b1 :: b2 :: b3 :: b4 :: b5 :: rest =>
      bitsVal [b1, b2, b3, b4, b5] :: bitsToGroups rest
  | [] => []
  | rest => [bitsVal (rest ++ List.replicate (5 - rest.length) false)]

/-- `multibase.encode(base32, bytes).toString()`. -/
def multibaseEncodeBase32 (bs : List Nat) : String :=
  String.mk ('b' :: (bitsToGroups ((bs.map (natBits 8)).flatten)).map
    (fun g => base32Chars.toList.getD g 'a'))

/-- An encoder collaborator that never throws: plain multibase base32. -/
def encB32 : List Nat → Except String String :=
  fun mh => Except.ok (multibaseEncodeBase32 mh)

/-- Replace the blockstore delete collaborator of an environment. -/
def setBlocksDelete (env : GCEnv) (d : CID → Option String) : GCEnv :=
  ⟨env.pinLs, env.internalBlocks, env.rootGet, env.refs, env.blocksQuery,
    d, env.encode, env.cidStr⟩

/-- Replace the blockstore key enumeration of an environment (the other
collaborators — pins, pin manager, root store, refs walker, delete, encoder
— are untouched). -/
def setBlocksQuery (env : GCEnv) (q : Except String (List CID)) : GCEnv :=
  ⟨env.pinLs, env.internalBlocks, env.rootGet, env.refs, q,
    env.blocksDelete, env.encode, env.cidStr⟩

def cidX : CID := ⟨0, 112, [1]⟩

def cidY : CID := ⟨0, 112, [2]⟩

def cidZ : CID := ⟨0, 112, [3]⟩

/-- A concrete environment: one pinned block `cidX`, no internal blocks, no
MFS root, a store holding `cidX` and `cidY`, all deletes succeeding.  Fields
in order: pinLs, internalBlocks, rootGet, refs, blocksQuery, blocksDelete,
encode, cidStr. -/
def baseEnv : GCEnv :=
  ⟨[cidX], [], Except.error RootErr.notFound, fun _ => [],
    Except.ok [cidX, cidY], fun _ => none, encB32,
    fun c => multibaseEncodeBase32 c.multihash⟩

/-- Every entry `removeBlock` returns either has no `cid` field (the
encode-failure shape) or carries exactly the processed key. -/
theorem removeBlock_cid_field (env : GCEnv) (m : Finset String) (a : CID)
    (e : GCEntry) (h : removeBlock env m a = some e) :
    e.cid = none ∨ e.cid = some a := by
  unfold removeBlock at h
  cases henc : env.encode a.multihash with
  | error msg =>
      rw [henc] at h
      simp only [Option.some.injEq] at h
      left
      rw [← h]
  | ok b32 =>
      rw [henc] at h
      by_cases hm : b32 ∈ m
      · simp [hm] at h
      · simp only [if_neg hm] at h
        cases hd : env.blocksDelete a with
        | none =>
            rw [hd] at h
            simp only [Option.some.injEq] at h
            right
            rw [← h]
        | some msg =>
            rw [hd] at h
            simp only [Option.some.injEq] at h
            right
            rw [← h]

/-- C1: liveness preservation.  An enumerated block key whose encoded
identifier (the base-32 multibase of its multihash) is in the marked set is
handled by returning `null`: no delete is attempted (the result is the same
for every delete collaborator), no result entry is emitted for that block,
and after GC the block still exists in the store. -/
theorem marked_block_retained (env : GCEnv) (m : Finset String)
    (keys : List CID) (cid : CID) (b32 : String)
    (hm : createMarkedSet env = Except.ok m)
    (hq : env.blocksQuery = Except.ok keys)
    (hk : cid ∈ keys)
    (henc : env.encode cid.multihash = Except.ok b32)
    (hmem : b32 ∈ m) :
    removeBlock env m cid = none ∧
    (∀ d, removeBlock (setBlocksDelete env d) m cid = none) ∧
    (∀ e ∈ deleteUnmarkedBlocks env m keys, e.cid ≠ some cid) ∧
    blockDeleted env m cid = false ∧
    cid ∈ storeAfterGC env := by
  have hnone : removeBlock env m cid = none := by
    unfold removeBlock
    rw [henc]
    simp [hmem]
  have hnotdel : blockDeleted env m cid = false := by
    unfold blockDeleted
    rw [henc]
    simp [hmem]
  refine ⟨hnone, ?_, ?_, hnotdel, ?_⟩
  · intro d
    unfold removeBlock setBlocksDelete
    rw [henc]
    simp [hmem]
  · intro e he hcontra
    rcases List.mem_filterMap.mp he with ⟨a, _, hra⟩
    rcases removeBlock_cid_field env m a e hra with h0 | h0
    · rw [h0] at hcontra
      exact Option.noConfusion hcontra
    · rw [h0] at hcontra
      have hac : a = cid := Option.some.inj hcontra
      rw [hac, hnone] at hra
      exact Option.noConfusion hra
  · unfold storeAfterGC
    rw [hm, hq]
    exact List.mem_filter.mpr ⟨hk, by rw [hnotdel]; rfl⟩

/-- Concrete instantiation of `marked_block_retained`: in `baseEnv` the
pinned block `cidX` is marked, gets no entry and survives the run. -/
theorem marked_block_retained_witness :
    removeBlock baseEnv (insert (multibaseEncodeBase32 [1]) ∅) cidX = none ∧
    cidX ∈ storeAfterGC baseEnv := by
  have h := marked_block_retained baseEnv
    (insert (multibaseEncodeBase32 [1]) ∅) [cidX, cidY] cidX
    (multibaseEncodeBase32 [1]) rfl rfl (List.mem_cons_self cidX [cidY])
    rfl (Finset.mem_insert_self (multibaseEncodeBase32 [1]) ∅)
  exact ⟨h.1, h.2.2.2.2⟩

/-- C2 as stated is false on the code: in `baseEnv` the unmarked block
`cidY` is deleted successfully, yet a result entry for it is emitted — the
sweep only filters the `null`s of retained blocks, and a successful delete
returns the entry carrying the cid. -/
theorem success_entry_emitted_counterexample :
    createMarkedSet baseEnv =
      Except.ok (insert (multibaseEncodeBase32 [1]) ∅) ∧
    multibaseEncodeBase32 cidY.multihash ∉
      (insert (multibaseEncodeBase32 [1]) (∅ : Finset String)) ∧
    baseEnv.blocksDelete cidY = none ∧
    (gc baseEnv).1 = Except.ok [(⟨some cidY, none⟩ : GCEntry)] :=
  ⟨rfl, by decide, rfl, rfl⟩

/-- C2 (amended): for every enumerated block whose encoded identifier is not
in the marked set, deletion is attempted and a result entry is emitted for
the block in every case: on success the entry carries the cid and no error
(and the block is removed from the store), on failure the cid together with
an error wrapping the cause. -/
theorem unmarked_block_entry (env : GCEnv) (m : Finset String)
    (keys : List CID) (cid : CID) (b32 : String)
    (hm : createMarkedSet env = Except.ok m)
    (hq : env.blocksQuery = Except.ok keys)
    (hk : cid ∈ keys)
    (henc : env.encode cid.multihash = Except.ok b32)
    (hmem : b32 ∉ m) :
    (env.blocksDelete cid = none →
      removeBlock env m cid = some ⟨some cid, none⟩ ∧
      blockDeleted env m cid = true ∧
      cid ∈ deletedBlocks env ∧
      cid ∉ storeAfterGC env) ∧
    (∀ msg, env.blocksDelete cid = some msg →
      removeBlock env m cid = some ⟨some cid,
        some ("Could not delete block with CID " ++ env.cidStr cid
          ++ ": " ++ msg)⟩) ∧
    (∃ e ∈ deleteUnmarkedBlocks env m keys, e.cid = some cid) := by
  refine ⟨?_, ?_, ?_⟩
  · intro hd
    have hrb : removeBlock env m cid = some ⟨some cid, none⟩ := by
      unfold removeBlock
      rw [henc]
      simp [hmem, hd]
    have hbd : blockDeleted env m cid = true := by
      unfold blockDeleted
      rw [henc]
      simp [hmem, hd]
    refine ⟨hrb, hbd, ?_, ?_⟩
    · unfold deletedBlocks
      rw [hm, hq]
      exact List.mem_filter.mpr ⟨hk, hbd⟩
    · unfold storeAfterGC
      rw [hm, hq]
      intro hcontra
      have := (List.mem_filter.mp hcontra).2
      rw [hbd] at this
      exact Bool.noConfusion this
  · intro msg hd
    unfold removeBlock
    rw [henc]
    simp [hmem, hd]
  · cases hd : env.blocksDelete cid with
    | none =>
        have hrb : removeBlock env m cid = some ⟨some cid, none⟩ := by
          unfold removeBlock
          rw [henc]
          simp [hmem, hd]
        exact ⟨⟨some cid, none⟩, List.mem_filterMap.mpr ⟨cid, hk, hrb⟩, rfl⟩
    | some msg =>
        have hrb : removeBlock env m cid = some ⟨some cid,
            some ("Could not delete block with CID " ++ env.cidStr cid
              ++ ": " ++ msg)⟩ := by
          unfold removeBlock
          rw [henc]
          simp [hmem, hd]
        exact ⟨_, List.mem_filterMap.mpr ⟨cid, hk, hrb⟩, rfl⟩

/-- Concrete instantiation of `unmarked_block_entry`: the unmarked block
`cidY` of `baseEnv` is deleted, reported with an entry, and gone from the
store. -/
theorem unmarked_block_entry_witness :
    removeBlock baseEnv (insert (multibaseEncodeBase32 [1]) ∅) cidY =
      some ⟨some cidY, none⟩ ∧
    cidY ∉ storeAfterGC baseEnv := by
  have h := unmarked_block_entry baseEnv
    (insert (multibaseEncodeBase32 [1]) ∅) [cidX, cidY] cidY
    (multibaseEncodeBase32 [2]) rfl rfl (by decide) rfl (by decide)
  have h2 := h.1 rfl
  exact ⟨h2.1, h2.2.2.2⟩

/-- C3: mark-phase atomicity and guaranteed lock release.  On every exit
path of a run the `finally` block invokes `release()` exactly once; if
building the marked set fails, the failure propagates to the caller and no
block is deleted (every enumerated key stays in the store); if the marked
set is built but starting the key enumeration fails, that failure propagates
and no block is deleted. -/
theorem gc_release_once_and_mark_abort (env : GCEnv) :
    (gc env).2 = 1 ∧
    (∀ msg, createMarkedSet env = Except.error msg →
      (gc env).1 = Except.error msg ∧
      deletedBlocks env = [] ∧
      ∀ keys, env.blocksQuery = Except.ok keys → storeAfterGC env = keys) ∧
    (∀ m msg, createMarkedSet env = Except.ok m →
      env.blocksQuery = Except.error msg →
      (gc env).1 = Except.error msg ∧ deletedBlocks env = []) := by
  refine ⟨?_, ?_, ?_⟩
  · unfold gc
    cases createMarkedSet env with
    | error msg => rfl
    | ok m =>
        cases env.blocksQuery with
        | error msg => rfl
        | ok keys => rfl
  · intro msg h
    refine ⟨?_, ?_, ?_⟩
    · unfold gc
      rw [h]
    · unfold deletedBlocks
      rw [h]
      cases env.blocksQuery with
      | error msg2 => rfl
      | ok keys => rfl
    · intro keys hq
      unfold storeAfterGC
      rw [h, hq]
  · intro m msg hm hq
    constructor
    · unfold gc
      rw [hm, hq]
    · unfold deletedBlocks
      rw [hm, hq]

/-- Environment whose MFS root lookup fails with a non-NOT_FOUND error:
the mark phase aborts the run. -/
def rootFailEnv : GCEnv :=
  ⟨[], [], Except.error (RootErr.other "boom"), fun _ => [],
    Except.ok [cidY], fun _ => none, encB32,
    fun c => multibaseEncodeBase32 c.multihash⟩

/-- Concrete instantiation of `gc_release_once_and_mark_abort`: a failing
root lookup aborts the run, the error propagates, nothing is deleted, and
the lock is released once. -/
theorem gc_release_once_and_mark_abort_witness :
    (gc rootFailEnv).2 = 1 ∧
    (gc rootFailEnv).1 = Except.error "boom" ∧
    deletedBlocks rootFailEnv = [] ∧
    storeAfterGC rootFailEnv = [cidY] := by
  have h := gc_release_once_and_mark_abort rootFailEnv
  have h2 := h.2.1 "boom" rfl
  exact ⟨h.1, h2.1, h2.2.1, h2.2.2 [cidY] rfl⟩

/-- C4: per-block error isolation.  When deleting the unmarked block `X`
fails while the unmarked blocks `Y` and `Z` succeed, the run still completes
with a result stream, that stream carries an entry for `X` whose error
message contains `X`'s identifier, `Y` and `Z` are removed from the store,
and `X` (whose delete failed) remains. -/
theorem per_block_error_isolation (env : GCEnv) (m : Finset String)
    (keys : List CID) (X Y Z : CID) (bX bY bZ : String) (msg : String)
    (hm : createMarkedSet env = Except.ok m)
    (hq : env.blocksQuery = Except.ok keys)
    (hkX : X ∈ keys) (hkY : Y ∈ keys) (hkZ : Z ∈ keys)
    (hencX : env.encode X.multihash = Except.ok bX) (hbX : bX ∉ m)
    (hencY : env.encode Y.multihash = Except.ok bY) (hbY : bY ∉ m)
    (hencZ : env.encode Z.multihash = Except.ok bZ) (hbZ : bZ ∉ m)
    (hdX : env.blocksDelete X = some msg)
    (hdY : env.blocksDelete Y = none)
    (hdZ : env.blocksDelete Z = none) :
    (∃ res, (gc env).1 = Except.ok res ∧
      (⟨some X, some ("Could not delete block with CID " ++ env.cidStr X
        ++ ": " ++ msg)⟩ : GCEntry) ∈ res) ∧
    Y ∈ deletedBlocks env ∧ Z ∈ deletedBlocks env ∧
    Y ∉ storeAfterGC env ∧ Z ∉ storeAfterGC env ∧
    X ∈ storeAfterGC env := by
  have hrbX : removeBlock env m X = some ⟨some X,
      some ("Could not delete block with CID " ++ env.cidStr X
        ++ ": " ++ msg)⟩ := by
    unfold removeBlock
    rw [hencX]
    simp [hbX, hdX]
  have hbdX : blockDeleted env m X = false := by
    unfold blockDeleted
    rw [hencX]
    simp [hbX, hdX]
  have hbdY : blockDeleted env m Y = true := by
    unfold blockDeleted
    rw [hencY]
    simp [hbY, hdY]
  have hbdZ : blockDeleted env m Z = true := by
    unfold blockDeleted
    rw [hencZ]
    simp [hbZ, hdZ]
  have hdelmem : ∀ c, c ∈ keys → blockDeleted env m c = true →
      c ∈ deletedBlocks env := by
    intro c hc hbd
    unfold deletedBlocks
    rw [hm, hq]
    exact List.mem_filter.mpr ⟨hc, hbd⟩
  have hstoremem : ∀ c, blockDeleted env m c = true →
      c ∉ storeAfterGC env := by
    intro c hbd hcontra
    unfold storeAfterGC at hcontra
    rw [hm, hq] at hcontra
    have := (List.mem_filter.mp hcontra).2
    rw [hbd] at this
    exact Bool.noConfusion this
  refine ⟨?_, hdelmem Y hkY hbdY, hdelmem Z hkZ hbdZ,
    hstoremem Y hbdY, hstoremem Z hbdZ, ?_⟩
  · refine ⟨deleteUnmarkedBlocks env m keys, ?_, ?_⟩
    · unfold gc
      rw [hm, hq]
    · exact List.mem_filterMap.mpr ⟨X, hkX, hrbX⟩
  · unfold storeAfterGC
    rw [hm, hq]
    exact List.mem_filter.mpr ⟨hkX, by rw [hbdX]; rfl⟩

/-- Environment with three unmarked stored blocks where deleting `cidX`
throws and deleting `cidY`, `cidZ` succeeds. -/
def delFailEnv : GCEnv :=
  ⟨[], [], Except.error RootErr.notFound, fun _ => [],
    Except.ok [cidX, cidY, cidZ],
    fun c => if c = cidX then some "disk error" else none, encB32,
    fun c => multibaseEncodeBase32 c.multihash⟩

/-- Concrete instantiation of `per_block_error_isolation` in `delFailEnv`. -/
theorem per_block_error_isolation_witness :
    (∃ res, (gc delFailEnv).1 = Except.ok res ∧
      (⟨some cidX, some ("Could not delete block with CID "
        ++ multibaseEncodeBase32 [1] ++ ": disk error")⟩ : GCEntry) ∈ res) ∧
    cidY ∈ deletedBlocks delFailEnv ∧
    cidZ ∈ deletedBlocks delFailEnv ∧
    cidX ∈ storeAfterGC delFailEnv := by
  have h := per_block_error_isolation delFailEnv ∅ [cidX, cidY, cidZ]
    cidX cidY cidZ (multibaseEncodeBase32 [1]) (multibaseEncodeBase32 [2])
    (multibaseEncodeBase32 [3]) "disk error" rfl rfl
    (by decide) (by decide) (by decide)
    rfl (Finset.not_mem_empty _)
    rfl (Finset.not_mem_empty _)
    rfl (Finset.not_mem_empty _)
    (by decide) (by decide) (by decide)
  exact ⟨h.1, h.2.1, h.2.2.1, h.2.2.2.2.2⟩

/-- `markCids` only ever grows the accumulator set. -/
theorem markCids_subset (enc : List Nat → Except String String) :
    ∀ (l : List CID) (init m : Finset String),
      markCids enc l init = Except.ok m → init ⊆ m := by
  intro l
  induction l with
  | nil =>
      intro init m h
      simp only [markCids, Except.ok.injEq] at h
      rw [h]
  | cons c rest ih =>
      intro init m h
      simp only [markCids] at h
      cases henc : enc c.multihash with
      | error msg =>
          rw [henc] at h
          exact absurd h (by simp)
      | ok s =>
          rw [henc] at h
          exact (Finset.subset_insert s init).trans (ih (insert s init) m h)

/-- Every cid a successful `markCids` run traverses has its encoding in the
resulting set. -/
theorem markCids_mem (enc : List Nat → Except String String) :
    ∀ (l : List CID) (init m : Finset String) (c : CID) (s : String),
      markCids enc l init = Except.ok m → c ∈ l →
      enc c.multihash = Except.ok s → s ∈ m := by
  intro l
  induction l with
  | nil =>
      intro init m c s _ hc
      exact absurd hc (List.not_mem_nil c)
  | cons a rest ih =>
      intro init m c s h hc hs
      simp only [markCids] at h
      cases henc : enc a.multihash with
      | error msg =>
          rw [henc] at h
          exact absurd h (by simp)
      | ok t =>
          rw [henc] at h
          rcases List.mem_cons.mp hc with hca | hcr
          · subst hca
            rw [henc] at hs
            injection hs with hts
            subst hts
            exact markCids_subset enc rest (insert t init) m h
              (Finset.mem_insert_self t init)
          · exact ih (insert t init) m c s h hcr hs

/-- C5: MFS-root handling in the marked-set builder.  A NOT_FOUND root
lookup makes the MFS source contribute nothing and the builder proceed over
the two remaining sources; any other lookup failure propagates through
`createMarkedSet` and aborts the run; a successful lookup contributes the
root cid and every cid the recursive refs walker yields, all of whose
encodings end up in the marked set. -/
theorem mfs_root_handling (env : GCEnv) :
    (env.rootGet = Except.error RootErr.notFound →
      mfsSource env = Except.ok [] ∧
      createMarkedSet env =
        markCids env.encode (env.pinLs ++ env.internalBlocks) ∅) ∧
    (∀ msg, env.rootGet = Except.error (RootErr.other msg) →
      mfsSource env = Except.error msg ∧
      createMarkedSet env = Except.error msg ∧
      (gc env).1 = Except.error msg ∧
      deletedBlocks env = []) ∧
    (∀ mh, env.rootGet = Except.ok mh →
      mfsSource env =
        Except.ok (CID.fromBytes mh :: env.refs (CID.fromBytes mh)) ∧
      ∀ m, createMarkedSet env = Except.ok m →
        ∀ c, (c = CID.fromBytes mh ∨ c ∈ env.refs (CID.fromBytes mh)) →
          ∀ s, env.encode c.multihash = Except.ok s → s ∈ m) := by
  refine ⟨?_, ?_, ?_⟩
  · intro h
    have hsrc : mfsSource env = Except.ok [] := by
      unfold mfsSource
      rw [h]
    refine ⟨hsrc, ?_⟩
    unfold createMarkedSet
    rw [hsrc]
    show markCids env.encode (env.pinLs ++ env.internalBlocks ++ []) ∅ =
      markCids env.encode (env.pinLs ++ env.internalBlocks) ∅
    rw [List.append_nil]
  · intro msg h
    have hsrc : mfsSource env = Except.error msg := by
      unfold mfsSource
      rw [h]
    have hcms : createMarkedSet env = Except.error msg := by
      unfold createMarkedSet
      rw [hsrc]
    refine ⟨hsrc, hcms, ?_, ?_⟩
    · unfold gc
      rw [hcms]
    · unfold deletedBlocks
      rw [hcms]
      cases env.blocksQuery with
      | error msg2 => rfl
      | ok keys => rfl
  · intro mh h
    have hsrc : mfsSource env =
        Except.ok (CID.fromBytes mh :: env.refs (CID.fromBytes mh)) := by
      unfold mfsSource
      rw [h]
    refine ⟨hsrc, ?_⟩
    intro m hm c hc s hs
    unfold createMarkedSet at hm
    rw [hsrc] at hm
    refine markCids_mem env.encode _ ∅ m c s hm ?_ hs
    rw [List.append_assoc]
    refine List.mem_append.mpr (Or.inr ?_)
    refine List.mem_append.mpr (Or.inr ?_)
    rcases hc with hc | hc
    · rw [hc]
      exact List.mem_cons_self _ _
    · exact List.mem_cons_of_mem _ hc

/-- Environment with an MFS root whose multihash is `[7]`, whose recursive
refs walk yields `cidZ`, and with `cidY` also stored. -/
def mfsEnv : GCEnv :=
  ⟨[], [], Except.ok [7], fun _ => [cidZ],
    Except.ok [CID.fromBytes [7], cidZ, cidY], fun _ => none, encB32,
    fun c => multibaseEncodeBase32 c.multihash⟩

/-- The marked set `createMarkedSet` builds in `mfsEnv`: the encodings of
the root multihash `[7]` and of the walked `cidZ`. -/
def mfsMarked : Finset String :=
  insert (multibaseEncodeBase32 [3]) (insert (multibaseEncodeBase32 [7]) ∅)

/-- Concrete instantiation of `mfs_root_handling`: in `mfsEnv` the root and
its single reachable cid are both marked; in `rootFailEnv` the failure
propagates; in `baseEnv` the NOT_FOUND lookup contributes nothing. -/
theorem mfs_root_handling_witness :
    mfsSource baseEnv = Except.ok [] ∧
    mfsSource rootFailEnv = Except.error "boom" ∧
    mfsSource mfsEnv = Except.ok [CID.fromBytes [7], cidZ] ∧
    multibaseEncodeBase32 [7] ∈ mfsMarked ∧
    multibaseEncodeBase32 [3] ∈ mfsMarked := by
  have h1 := (mfs_root_handling baseEnv).1 rfl
  have h2 := (mfs_root_handling rootFailEnv).2.1 "boom" rfl
  have h3 := (mfs_root_handling mfsEnv).2.2 [7] rfl
  have hroot := h3.2 mfsMarked rfl (CID.fromBytes [7]) (Or.inl rfl)
    (multibaseEncodeBase32 [7]) rfl
  have href := h3.2 mfsMarked rfl cidZ (Or.inr (by decide))
    (multibaseEncodeBase32 [3]) rfl
  exact ⟨h1.1, h2.1, h3.1, hroot, href⟩

/-- The encoding a cid contributes when the encoder does not throw on it. -/
def encodedOf (enc : List Nat → Except String String) (c : CID) :
    Option String :=
  match enc c.multihash with
  | Except.ok s => some s
  | Except.error _ => none

/-- A successful `markCids` run produces exactly the accumulator joined with
the encodings of the traversed cids. -/
theorem markCids_eq_union (enc : List Nat → Except String String) :
    ∀ (l : List CID) (init m : Finset String),
      markCids enc l init = Except.ok m →
      m = init ∪ (l.filterMap (encodedOf enc)).toFinset := by
  intro l
  induction l with
  | nil =>
      intro init m h
      simp only [markCids, Except.ok.injEq] at h
      simp [← h]
  | cons c rest ih =>
      intro init m h
      simp only [markCids] at h
      cases henc : enc c.multihash with
      | error msg =>
          rw [henc] at h
          exact absurd h (by simp)
      | ok s =>
          rw [henc] at h
          rw [ih (insert s init) m h]
          have hfm : List.filterMap (encodedOf enc) (c :: rest)
              = s :: List.filterMap (encodedOf enc) rest := by
            simp [List.filterMap_cons, encodedOf, henc]
          rw [hfm]
          ext x
          simp only [Finset.mem_union, Finset.mem_insert, List.mem_toFinset,
            List.toFinset_cons]
          tauto

/-- C7: deduplication in the marked set.  Every cid any of the three sources
yields has its encoded identifier in the set; inserting it again is a no-op
and leaves the cardinality unchanged (so a cid produced by two sources is
counted once); and the resulting set is the same for every production order
of the concurrently merged sources. -/
theorem marked_set_dedup (env : GCEnv) (mfs : List CID) (m : Finset String)
    (hmfs : mfsSource env = Except.ok mfs)
    (hm : createMarkedSet env = Except.ok m) :
    (∀ c, c ∈ env.pinLs ++ env.internalBlocks ++ mfs →
      ∀ s, env.encode c.multihash = Except.ok s →
        s ∈ m ∧ insert s m = m ∧ (insert s m).card = m.card) ∧
    (∀ l2 m2, (env.pinLs ++ env.internalBlocks ++ mfs).Perm l2 →
      markCids env.encode l2 ∅ = Except.ok m2 → m2 = m) := by
  have hmarked : markCids env.encode
      (env.pinLs ++ env.internalBlocks ++ mfs) ∅ = Except.ok m := by
    unfold createMarkedSet at hm
    rw [hmfs] at hm
    exact hm
  constructor
  · intro c hc s hs
    have hsm := markCids_mem env.encode _ ∅ m c s hmarked hc hs
    have hins : insert s m = m := Finset.insert_eq_self.mpr hsm
    exact ⟨hsm, hins, by rw [hins]⟩
  · intro l2 m2 hperm h2
    rw [markCids_eq_union env.encode _ ∅ m hmarked,
      markCids_eq_union env.encode l2 ∅ m2 h2]
    rw [List.toFinset_eq_of_perm _ _ (hperm.filterMap (encodedOf env.encode))]

/-- Environment in which the same cid is produced by two sources: `cidX` is
both explicitly pinned and a pin-manager-internal block. -/
def dupEnv : GCEnv :=
  ⟨[cidX], [cidX], Except.error RootErr.notFound, fun _ => [],
    Except.ok [cidX], fun _ => none, encB32,
    fun c => multibaseEncodeBase32 c.multihash⟩

/-- The marked set `createMarkedSet` builds in `dupEnv`. -/
def dupMarked : Finset String :=
  insert (multibaseEncodeBase32 [1]) (insert (multibaseEncodeBase32 [1]) ∅)

/-- Concrete instantiation of `marked_set_dedup`: the doubly-produced `cidX`
of `dupEnv` is marked once — re-inserting its encoding changes neither the
set nor its cardinality. -/
theorem marked_set_dedup_witness :
    multibaseEncodeBase32 [1] ∈ dupMarked ∧
    insert (multibaseEncodeBase32 [1]) dupMarked = dupMarked ∧
    (insert (multibaseEncodeBase32 [1]) dupMarked).card = dupMarked.card := by
  have h := marked_set_dedup dupEnv [] dupMarked rfl rfl
  exact h.1 cidX (by decide) (multibaseEncodeBase32 [1]) rfl

/-- C8: idempotence of GC.  Run GC once; re-run it on the store the first
run leaves behind, with the pin, pin-manager, MFS and refs collaborators
unchanged and every delete call of the first run succeeding.  The second run
rebuilds the same marked set and deletes zero blocks, leaving the store
untouched. -/
theorem gc_idempotent (env : GCEnv) (m : Finset String) (keys : List CID)
    (hm : createMarkedSet env = Except.ok m)
    (hq : env.blocksQuery = Except.ok keys)
    (_hdel : ∀ c, env.blocksDelete c = none) :
    createMarkedSet (setBlocksQuery env (Except.ok (storeAfterGC env)))
      = Except.ok m ∧
    deletedBlocks (setBlocksQuery env (Except.ok (storeAfterGC env))) = [] ∧
    storeAfterGC (setBlocksQuery env (Except.ok (storeAfterGC env)))
      = storeAfterGC env := by
  have hq2 : ∀ ks : List CID,
      (setBlocksQuery env (Except.ok ks)).blocksQuery = Except.ok ks :=
    fun _ => rfl
  have hcms2 : ∀ ks : List CID,
      createMarkedSet (setBlocksQuery env (Except.ok ks)) = Except.ok m := by
    intro ks
    have hsame : createMarkedSet (setBlocksQuery env (Except.ok ks))
        = createMarkedSet env := rfl
    rw [hsame, hm]
  have hdel2 : ∀ ks : List CID,
      deletedBlocks (setBlocksQuery env (Except.ok ks))
        = ks.filter (fun c => blockDeleted env m c) := by
    intro ks
    unfold deletedBlocks
    rw [hcms2 ks, hq2 ks]
    rfl
  have hstore2 : ∀ ks : List CID,
      storeAfterGC (setBlocksQuery env (Except.ok ks))
        = ks.filter (fun c => !(blockDeleted env m c)) := by
    intro ks
    unfold storeAfterGC
    rw [hcms2 ks, hq2 ks]
    rfl
  have hstore : storeAfterGC env
      = keys.filter (fun c => !(blockDeleted env m c)) := by
    unfold storeAfterGC
    rw [hm, hq]
  have hsurv : ∀ c, c ∈ storeAfterGC env → blockDeleted env m c = false := by
    intro c hc
    rw [hstore] at hc
    have hb := (List.mem_filter.mp hc).2
    simpa using hb
  refine ⟨hcms2 _, ?_, ?_⟩
  · rw [hdel2 (storeAfterGC env)]
    apply List.filter_eq_nil_iff.mpr
    intro a ha hba
    rw [hsurv a ha] at hba
    exact Bool.noConfusion hba
  · rw [hstore2 (storeAfterGC env)]
    apply List.filter_eq_self.mpr
    intro a ha
    rw [hsurv a ha]
    rfl

/-- Concrete instantiation of `gc_idempotent` at `baseEnv`: a second run on
the surviving store deletes nothing and leaves the store as it was. -/
theorem gc_idempotent_witness :
    deletedBlocks (setBlocksQuery baseEnv
      (Except.ok (storeAfterGC baseEnv))) = [] ∧
    storeAfterGC (setBlocksQuery baseEnv
      (Except.ok (storeAfterGC baseEnv))) = storeAfterGC baseEnv := by
  have h := gc_idempotent baseEnv (insert (multibaseEncodeBase32 [1]) ∅)
    [cidX, cidY] rfl rfl (fun _ => rfl)
  exact ⟨h.2.1, h.2.2⟩

/-- C9: the shape of an error entry depends on the failure site.  A failed
delete call yields an entry carrying both the cid and an error whose message
begins with the text `Could not delete block with CID`; a failure raised
while encoding the identifier yields an entry with no cid field whose error
message begins with the (typo-carrying) text `Could delete block with CID`,
the identifier appearing only interpolated into that message. -/
theorem entry_shape_by_failure_site (env : GCEnv) (m : Finset String)
    (cid : CID) :
    (∀ b32 msg, env.encode cid.multihash = Except.ok b32 → b32 ∉ m →
      env.blocksDelete cid = some msg →
      removeBlock env m cid = some ⟨some cid,
        some ("Could not delete block with CID " ++ env.cidStr cid
          ++ ": " ++ msg)⟩) ∧
    (∀ msg, env.encode cid.multihash = Except.error msg →
      removeBlock env m cid = some ⟨none,
        some ("Could delete block with CID " ++ env.cidStr cid
          ++ ": " ++ msg)⟩) := by
  constructor
  · intro b32 msg henc hmem hd
    unfold removeBlock
    rw [henc]
    simp [hmem, hd]
  · intro msg henc
    unfold removeBlock
    rw [henc]

/-- Environment whose encoder always throws during the sweep (store
enumeration succeeds, marked set building needs no encoding because all
three sources are empty). -/
def encFailEnv : GCEnv :=
  ⟨[], [], Except.error RootErr.notFound, fun _ => [], Except.ok [cidX],
    fun _ => none, fun _ => Except.error "bad mh",
    fun c => multibaseEncodeBase32 c.multihash⟩

/-- Concrete instantiation of `entry_shape_by_failure_site`: the two entry
shapes at `delFailEnv` (failed delete: cid plus wrapped error) and at
`encFailEnv` (failed encode: no cid, message-only identifier). -/
theorem entry_shape_by_failure_site_witness :
    removeBlock delFailEnv ∅ cidX = some ⟨some cidX,
      some ("Could not delete block with CID " ++ multibaseEncodeBase32 [1]
        ++ ": disk error")⟩ ∧
    removeBlock encFailEnv ∅ cidX = some ⟨none,
      some ("Could delete block with CID " ++ multibaseEncodeBase32 [1]
        ++ ": bad mh")⟩ := by
  have h1 := (entry_shape_by_failure_site delFailEnv ∅ cidX).1
    (multibaseEncodeBase32 [1]) "disk error" rfl (Finset.not_mem_empty _)
    (by decide)
  have h2 := (entry_shape_by_failure_site encFailEnv ∅ cidX).2 "bad mh" rfl
  exact ⟨h1, h2⟩

/-- C10: retention depends on multihash bytes only.  Both the set builder
and the sweep's membership test encode `cid.multihash` alone, so when a
source yields `c1` and the store enumerates a different `c2` with the same
multihash bytes (say a different CID version or codec), `c2` is retained:
its key gets the same encoded identifier, `removeBlock` returns `null`, and
the block survives the run. -/
theorem retention_multihash_only (env : GCEnv) (mfs : List CID)
    (m : Finset String) (keys : List CID) (c1 c2 : CID) (s : String)
    (hmfs : mfsSource env = Except.ok mfs)
    (hm : createMarkedSet env = Except.ok m)
    (hq : env.blocksQuery = Except.ok keys)
    (hc1 : c1 ∈ env.pinLs ++ env.internalBlocks ++ mfs)
    (hs : env.encode c1.multihash = Except.ok s)
    (hmh : c2.multihash = c1.multihash)
    (hk : c2 ∈ keys) :
    env.encode c2.multihash = env.encode c1.multihash ∧
    removeBlock env m c2 = none ∧
    blockDeleted env m c2 = false ∧
    c2 ∈ storeAfterGC env := by
  have hmarked : markCids env.encode
      (env.pinLs ++ env.internalBlocks ++ mfs) ∅ = Except.ok m := by
    unfold createMarkedSet at hm
    rw [hmfs] at hm
    exact hm
  have hsm : s ∈ m := markCids_mem env.encode _ ∅ m c1 s hmarked hc1 hs
  have henc2 : env.encode c2.multihash = Except.ok s := by
    rw [hmh]
    exact hs
  have hrb : removeBlock env m c2 = none := by
    unfold removeBlock
    rw [henc2]
    simp [hsm]
  have hbd : blockDeleted env m c2 = false := by
    unfold blockDeleted
    rw [henc2]
    simp [hsm]
  refine ⟨by rw [hmh], hrb, hbd, ?_⟩
  unfold storeAfterGC
  rw [hm, hq]
  exact List.mem_filter.mpr ⟨hk, by rw [hbd]; rfl⟩

/-- Environment pinning the CIDv0 `cidX` while the store holds a CIDv1
(raw codec) key over the same multihash bytes. -/
def mhEnv : GCEnv :=
  ⟨[cidX], [], Except.error RootErr.notFound, fun _ => [],
    Except.ok [⟨1, 85, [1]⟩], fun _ => none, encB32,
    fun c => multibaseEncodeBase32 c.multihash⟩

/-- Concrete instantiation of `retention_multihash_only`: the CIDv1 twin of
the pinned CIDv0 `cidX` is retained by `mhEnv`'s run. -/
theorem retention_multihash_only_witness :
    removeBlock mhEnv (insert (multibaseEncodeBase32 [1]) ∅)
      (⟨1, 85, [1]⟩ : CID) = none ∧
    (⟨1, 85, [1]⟩ : CID) ∈ storeAfterGC mhEnv := by
  have h := retention_multihash_only mhEnv []
    (insert (multibaseEncodeBase32 [1]) ∅) [⟨1, 85, [1]⟩] cidX
    ⟨1, 85, [1]⟩ (multibaseEncodeBase32 [1]) rfl rfl rfl (by decide) rfl
    rfl (by decide)
  exact ⟨h.2.1, h.2.2.2⟩

end RepoGC
